import Mathlib

/-!
Verification of the ReadyTraderGo quoting-and-risk engine.

This file is a shallow embedding of the two auto-trader strategies of the
repository (`myautotrader.py` and `newautotrader.py`) together with proofs
about them.  Python dictionaries are modelled as association lists with
unique keys, Python sets as lists without duplicates, and the float
arithmetic of the source as exact rational arithmetic over unnormalised
fractions (`Frac`), which the kernel can evaluate.  Every concrete trace
used below only exercises points where IEEE double arithmetic is exact
(halves, tenths of small integers), so the rational model and the float
source agree on those traces.  The transcendental `sigmoid` of the source
(`1 / (1 + exp(-x / SIG_STRETCH))`) is modelled as an explicit function
parameter `sig`; universally quantified theorems hold for every such
function, and concrete traces are arranged so that the sigmoid is only
ever evaluated at `0`, where the source computes exactly `1/2`
(`exp(0) = 1.0` exactly, also in floating point).
-/

/-- Exact rational numbers as unnormalised fractions.  All fractions built
by the embedding have a positive denominator (denominators are products of
positive integers), and the comparison operations below are the standard
cross-multiplication ones, valid for positive denominators. -/
structure Frac where
  num : ℤ
  den : ℤ
deriving DecidableEq, Repr

def Frac.ofInt (n : ℤ) : Frac := ⟨n, 1⟩

instance : Add Frac := ⟨fun x y => ⟨x.num * y.den + y.num * x.den, x.den * y.den⟩⟩

instance : Sub Frac := ⟨fun x y => ⟨x.num * y.den - y.num * x.den, x.den * y.den⟩⟩

instance : Mul Frac := ⟨fun x y => ⟨x.num * y.num, x.den * y.den⟩⟩

instance : Div Frac := ⟨fun x y => ⟨x.num * y.den, x.den * y.num⟩⟩

/-- Boolean `x ≤ y` for fractions with positive denominators. -/
def Frac.leB (x y : Frac) : Bool := decide (x.num * y.den ≤ y.num * x.den)

/-- Boolean `x < y` for fractions with positive denominators. -/
def Frac.ltB (x y : Frac) : Bool := decide (x.num * y.den < y.num * x.den)

/-- Floor of a fraction with positive denominator (`Int.fdiv` rounds
towards minus infinity, like Python's `//`). -/
def Frac.floor (x : Frac) : ℤ := Int.fdiv x.num x.den

/-- Python's built-in `round`: round half to even.  `r` is the fractional
part of `x`; the three-way comparison with `1/2` is exact. -/
def roundF (x : Frac) : ℤ :=
  let f := x.floor
  let r := x - Frac.ofInt f
  if r.ltB ⟨1, 2⟩ then f
  else if Frac.ltB ⟨1, 2⟩ r then f + 1
  else if f % 2 = 0 then f else f + 1

/-- Python's `int(...)` on a float value: truncation towards zero (Lean's
`Int` division also truncates towards zero). -/
def intTrunc (x : Frac) : ℤ := x.num / x.den

/- Constants of `myautotrader.py` (and the shared ones of
`newautotrader.py`).  Prices and volumes are integers. -/

def POSITION_LIMIT : ℤ := 100

def TICK_SIZE_IN_CENTS : ℤ := 100

def ACTIVE_ORDER_COUNT_LIMIT : ℕ := 10

def ACTIVE_VOLUME_LIMIT : ℤ := 200

def RATELIMIT : ℤ := 24

def MIN_VOLUME_OF_INTEREST : ℕ := 20

def LOT_SIZE : ℤ := 10

/-- Modelled from the spec: the venue's minimum allowable bid price, a
constant of the excluded `ready_trader_go` collaborator library (its value
there is 1, the smallest positive price in cents). -/
def MINIMUM_BID : ℤ := 1

/-- Modelled from the spec: the venue's maximum allowable ask price, a
constant of the excluded `ready_trader_go` collaborator library (its value
there is `2 ^ 31 - 1`). -/
def MAXIMUM_ASK : ℤ := 2147483647

def MIN_BID_NEAREST_TICK : ℤ :=
  (MINIMUM_BID + TICK_SIZE_IN_CENTS) / TICK_SIZE_IN_CENTS * TICK_SIZE_IN_CENTS

def MAX_ASK_NEAREST_TICK : ℤ := MAXIMUM_ASK / TICK_SIZE_IN_CENTS * TICK_SIZE_IN_CENTS

/-- Order side.  The source's `Side.BUY`/`Side.BID` is `buy` and
`Side.SELL`/`Side.ASK` is `sell` (they are aliases in the venue library). -/
inductive Side where
  | buy
  | sell
deriving DecidableEq, Repr

/-- An outbound message to the venue.  Every insert of the source uses
`Lifespan.GOOD_FOR_DAY`, so the lifespan argument is omitted. -/
inductive Act where
  | insert (id : ℕ) (side : Side) (price : ℤ) (volume : ℤ)
  | cancel (id : ℕ)
  | hedge (id : ℕ) (side : Side) (price : ℤ) (volume : ℤ)
deriving DecidableEq, Repr

def Act.isInsert : Act → Bool
  | .insert _ _ _ _ => true
  | _ => false

def Act.isCancel : Act → Bool
  | .cancel _ => true
  | _ => false

/-- Inserts and cancels are the rate-limited order actions; hedge orders
are not. -/
def countIC (l : List Act) : ℕ := (l.filter (fun a => a.isInsert || a.isCancel)).length

/-- One tracked order of `myautotrader.py`: the dict
`{"price": ..., "volume": ...}`. -/
structure Order where
  price : ℤ
  volume : ℤ
deriving DecidableEq, Repr

/- Association lists model the Python dicts `self.bids` / `self.asks`
(insertion-ordered, unique keys). -/

def keysOf (l : List (ℕ × Order)) : List ℕ := l.map Prod.fst

def containsA (k : ℕ) (l : List (ℕ × Order)) : Bool := l.any (fun p => p.1 == k)

def lookupA (k : ℕ) (l : List (ℕ × Order)) : Option Order :=
  (l.find? (fun p => p.1 == k)).map Prod.snd

/-- `d[k] = v`: replace the value at an existing key, else append. -/
def insertA (k : ℕ) (v : Order) (l : List (ℕ × Order)) : List (ℕ × Order) :=
  if containsA k l then l.map (fun p => if p.1 == k then (k, v) else p) else l ++ [(k, v)]

/-- `d.pop(k, None)`: on a unique-key list this is just a filter. -/
def eraseA (k : ℕ) (l : List (ℕ × Order)) : List (ℕ × Order) :=
  l.filter (fun p => p.1 != k)

def volSum (l : List (ℕ × Order)) : ℤ := (l.map (fun p => p.2.volume)).sum

/-- Membership-avoiding insertion into a Python `set` modelled as a list. -/
def addSetN (k : ℕ) (l : List ℕ) : List ℕ := if k ∈ l then l else l ++ [k]

/-- The mutable state of `myautotrader.py`'s `AutoTrader`.  `nextId` is the
next value of the `itertools.count(1)` order-id generator.  The ladder
fields start as the Python sentinel `-1`; they are only ever read after
being overwritten, so the initial list value is irrelevant and `[]` is
used. -/
structure MyState where
  nextId : ℕ
  bids : List (ℕ × Order)
  asks : List (ℕ × Order)
  ask_id : ℕ
  bid_id : ℕ
  ask_price : ℤ
  bid_price : ℤ
  position : ℤ
  ftrmid : Frac
  wmp : Frac
  ask_prices : List ℤ
  ask_volumes : List ℕ
  bid_prices : List ℤ
  bid_volumes : List ℕ
  bestBid : ℤ
  bestAsk : ℤ
  awaitingCancel : List ℕ
  count : ℤ
  tick : ℕ
deriving DecidableEq, Repr

def initMy : MyState :=
  { nextId := 1, bids := [], asks := [], ask_id := 0, bid_id := 0,
    ask_price := 0, bid_price := 0, position := 0,
    ftrmid := Frac.ofInt (-1), wmp := Frac.ofInt (-1),
    ask_prices := [], ask_volumes := [], bid_prices := [], bid_volumes := [],
    bestBid := -1, bestAsk := -1, awaitingCancel := [], count := 0, tick := 0 }

/-- `activeVolume`: the sum of the tracked remaining volumes of all bid
and ask entries. -/
def activeVolume (s : MyState) : ℤ := volSum s.bids + volSum s.asks

/-- `relevantPrices`: the first ask and bid level whose volume exceeds
`MIN_VOLUME_OF_INTEREST`, `(-1, -1)` if a side has none.  Returned as
`(bestAsk, bestBid)` like the source. -/
def relevantPrices (ap : List ℤ) (av : List ℕ) (bp : List ℤ) (bv : List ℕ) : ℤ × ℤ :=
  match av.findIdx? (fun v => MIN_VOLUME_OF_INTEREST < v),
        bv.findIdx? (fun v => MIN_VOLUME_OF_INTEREST < v) with
  | some i, some j =>
      if ap.length ≤ i ∨ bp.length ≤ j then (-1, -1)
      else (ap.getD i 0, bp.getD j 0)
  | _, _ => (-1, -1)

/-- `manageVolumes`: split the free exposure budget between ask and bid
according to the sigmoid share `sig` of
`position - middiff * POSITION_LIMIT`, then move any volume whose fill
would breach the position limit to the other side. -/
def manageVolumes (sig : Frac → Frac) (s : MyState) (wmp : Frac) : ℤ × ℤ :=
  if ACTIVE_ORDER_COUNT_LIMIT - 1 ≤ s.bids.length + s.asks.length then (0, 0)
  else if ACTIVE_VOLUME_LIMIT ≤ activeVolume s then (0, 0)
  else
    let left := ACTIVE_VOLUME_LIMIT - activeVolume s
    if left < 20 then (0, 0)
    else
      let middiff := (s.ftrmid - wmp) / ⟨20, 1⟩
      let asks := sig (Frac.ofInt s.position - middiff * Frac.ofInt POSITION_LIMIT)
      let askVol0 := roundF (Frac.ofInt left * asks)
      let bidVol0 := left - askVol0
      let p1 := if POSITION_LIMIT ≤ s.position + bidVol0 then (askVol0 + bidVol0, 0)
                else (askVol0, bidVol0)
      let p2 := if s.position - p1.1 ≤ -POSITION_LIMIT then ((0 : ℤ), p1.2 + p1.1)
                else p1
      p2

/-- `managePrices`: choose target ask/bid prices from the fair reference
`ftrmid`, the weighted mid and the relevant best prices, and store them in
`ask_price` / `bid_price`.  The source's `0.6` is the exact `3/5`; on the
concrete traces below the rounded results agree with the float source.
Returns `(state, askP, bidP)`. -/
def managePrices (s : MyState) (midprice : Frac) (bestBid bestAsk : ℤ) : MyState × ℤ × ℤ :=
  let pr :=
    if (Frac.ofInt bestBid).leB s.ftrmid && s.ftrmid.leB (Frac.ofInt bestAsk) then
      (roundF (midprice + ⟨3, 5⟩), roundF (midprice - ⟨3, 5⟩))
    else if s.ftrmid.ltB (Frac.ofInt bestBid) then
      (roundF (midprice + ⟨3, 5⟩), bestBid)
    else
      (bestAsk, roundF (midprice - ⟨3, 5⟩))
  ({ s with ask_price := pr.1, bid_price := pr.2 }, pr.1, pr.2)

/-- `makeTrade`: compute volumes and prices, and if the rate budget allows
(`count < RATELIMIT - 1`), consume two budget units, draw two fresh order
ids, conditionally cancel (the condition compares the target price against
`self.bid_price`, which `managePrices` has just set to that very target,
so it can never hold), then unconditionally insert a `LOT_SIZE` bid and
ask and record them.  The ladder arguments of the source are unused. -/
def makeTrade (sig : Frac → Frac) (s : MyState) (midprice : Frac)
    (ap : List ℤ) (av : List ℕ) (bp : List ℤ) (bv : List ℕ)
    (bestBid bestAsk : ℤ) : MyState × List Act :=
  let vols := manageVolumes sig s midprice
  let mp := managePrices s midprice bestBid bestAsk
  let s1 := mp.1
  let askP := mp.2.1
  let bidP := mp.2.2
  if s1.count < RATELIMIT - 1 then
    let bidId := s1.nextId
    let askId := s1.nextId + 1
    let s2 := { s1 with count := s1.count + 2, nextId := s1.nextId + 2 }
    let cb : Bool := bidId != 0 && !(bidP == s2.bid_price || bidP == 0)
    let s3 := if cb then { s2 with bid_id := 0 } else s2
    let ca : Bool := askId != 0 && !(askP == s3.ask_price || askP == 0)
    let s4 := if ca then { s3 with ask_id := 0 } else s3
    let s5 := { s4 with bids := insertA bidId ⟨bidP, vols.2⟩ s4.bids,
                        asks := insertA askId ⟨askP, vols.1⟩ s4.asks }
    (s5, (if cb then [Act.cancel s2.bid_id] else [])
          ++ (if ca then [Act.cancel s3.ask_id] else [])
          ++ [Act.insert bidId .buy (bidP * TICK_SIZE_IN_CENTS) LOT_SIZE,
              Act.insert askId .sell (askP * TICK_SIZE_IN_CENTS) LOT_SIZE])
  else (s1, [])

/-- Dead-quote conditions of `deleteDeadTrades` for a bid entry. -/
def deadBid (ftrmid : Frac) (bestBid spread : ℤ) (o : Order) : Bool :=
  decide (0 < bestBid - o.price)
    || Frac.ltB ⟨2, 1⟩ (Frac.ofInt o.price - ftrmid)
    || decide (3 < spread)

/-- Dead-quote conditions of `deleteDeadTrades` for an ask entry. -/
def deadAsk (ftrmid : Frac) (bestAsk spread : ℤ) (o : Order) : Bool :=
  decide (0 < o.price - bestAsk)
    || Frac.ltB ⟨2, 1⟩ (ftrmid - Frac.ofInt o.price)
    || decide (3 < spread)

/-- Result of one cancellation sweep over a snapshot of one order map. -/
structure Sweep where
  cnt : ℤ
  aw : List ℕ
  acts : List Act
  halted : Bool
deriving Repr

/-- The body of one `for` loop of `deleteDeadTrades`: cancel every dead
entry while the rate budget lasts; hitting the budget aborts the whole
function (Python `return`). -/
def sweepList (cond : Order → Bool) : List (ℕ × Order) → ℤ → List ℕ → Sweep
  | [], c, aw => ⟨c, aw, [], false⟩
  | (k, v) :: rest, c, aw =>
    if cond v then
      if c < RATELIMIT then
        let r := sweepList cond rest (c + 1) (addSetN k aw)
        ⟨r.cnt, r.aw, Act.cancel k :: r.acts, r.halted⟩
      else ⟨c, aw, [], true⟩
    else sweepList cond rest c aw

/-- `deleteDeadTrades`: sweep the bids, and unless that sweep aborted on
budget exhaustion, sweep the asks. -/
def deleteDeadTrades (bestBid bestAsk : ℤ) (s : MyState) : MyState × List Act :=
  let spread := bestAsk - bestBid
  let r1 := sweepList (deadBid s.ftrmid bestBid spread) s.bids s.count s.awaitingCancel
  if r1.halted then ({ s with count := r1.cnt, awaitingCancel := r1.aw }, r1.acts)
  else
    let r2 := sweepList (deadAsk s.ftrmid bestAsk spread) s.asks r1.cnt r1.aw
    ({ s with count := r2.cnt, awaitingCancel := r2.aw }, r1.acts ++ r2.acts)

/-- The state-storing prefix of an ETF tick of
`on_order_book_update_message`: advance the tick counter, reset the rate
budget every fourth tick, and store the snapshot and the relevant best
prices. -/
def bookStore (ap : List ℤ) (av : List ℕ) (bp : List ℤ) (bv : List ℕ) (w : Frac)
    (s : MyState) : MyState :=
  let s1 := { s with tick := s.tick + 1 }
  let s2 := if s1.tick % 4 = 0 then { s1 with count := 0 } else s1
  let rp := relevantPrices ap av bp bv
  { s2 with wmp := w, ask_prices := ap, ask_volumes := av,
            bid_prices := bp, bid_volumes := bv,
            bestBid := rp.2, bestAsk := rp.1 }

/-- `on_order_book_update_message` of `myautotrader.py`.  A zero combined
top-of-book volume ignores the tick; an instrument-0 (future) tick only
refreshes the fair reference; an ETF tick advances the tick counter,
resets the rate budget every fourth tick, stores the snapshot, sweeps dead
quotes and, if the tracked active volume is below 150, quotes. -/
def on_order_book_update (sig : Frac → Frac) (instrument seq : ℕ)
    (ap : List ℤ) (av : List ℕ) (bp : List ℤ) (bv : List ℕ)
    (s : MyState) : MyState × List Act :=
  if bv.getD 0 0 = 0 ∧ av.getD 0 0 = 0 then (s, [])
  else
    let i : Frac := ⟨(bv.getD 0 0 : ℤ), (bv.getD 0 0 : ℤ) + (av.getD 0 0 : ℤ)⟩
    let w : Frac := i * Frac.ofInt (ap.getD 0 0) + (Frac.ofInt 1 - i) * Frac.ofInt (bp.getD 0 0)
    if instrument = 0 then ({ s with ftrmid := w }, [])
    else
      let s3 := bookStore ap av bp bv w s
      let r1 := deleteDeadTrades s3.bestBid s3.bestAsk s3
      if activeVolume r1.1 < 150 then
        let r2 := makeTrade sig r1.1 r1.1.wmp r1.1.ask_prices r1.1.ask_volumes
                    r1.1.bid_prices r1.1.bid_volumes r1.1.bestBid r1.1.bestAsk
        (r2.1, r1.2 ++ r2.2)
      else r1

/-- `on_order_filled_message` of `myautotrader.py`: a fill on a tracked
bid raises the position, decrements that entry's tracked volume, and sends
one sell hedge of the filled volume at `MIN_BID_NEAREST_TICK`; a fill on a
tracked ask is symmetric. -/
def on_order_filled (id : ℕ) (price : ℤ) (volume : ℕ) (s : MyState) : MyState × List Act :=
  if containsA id s.bids then
    let o := (lookupA id s.bids).getD ⟨0, 0⟩
    ({ s with position := s.position + volume,
              bids := insertA id ⟨o.price, o.volume - volume⟩ s.bids,
              nextId := s.nextId + 1 },
     [Act.hedge s.nextId .sell MIN_BID_NEAREST_TICK (volume : ℤ)])
  else if containsA id s.asks then
    let o := (lookupA id s.asks).getD ⟨0, 0⟩
    ({ s with position := s.position - volume,
              asks := insertA id ⟨o.price, o.volume - volume⟩ s.asks,
              nextId := s.nextId + 1 },
     [Act.hedge s.nextId .buy MAX_ASK_NEAREST_TICK (volume : ℤ)])
  else (s, [])

/-- `on_order_status_message` of `myautotrader.py`: a zero remaining
volume clears the matching quote-id field and removes the order from both
maps. -/
def on_order_status (id : ℕ) (fillVol remVol : ℕ) (fees : ℤ) (s : MyState) : MyState :=
  if remVol = 0 then
    let s1 := if containsA id s.bids then { s with bid_id := 0 }
              else if containsA id s.asks then { s with ask_id := 0 }
              else s
    { s1 with bids := eraseA id s1.bids, asks := eraseA id s1.asks }
  else s

/-- `on_error_message` of `myautotrader.py`: an error for a known nonzero
order id is treated as a zero-fill zero-remaining status update. -/
def on_error (id : ℕ) (s : MyState) : MyState :=
  if id ≠ 0 ∧ (containsA id s.bids || containsA id s.asks) then on_order_status id 0 0 0 s
  else s

/-- The inbound events handled by `myautotrader.py`.  Venue volumes are
natural numbers.  `ticks` is the trade-ticks message, which the source
only logs. -/
inductive MyEvent where
  | book (instrument seq : ℕ) (ap : List ℤ) (av : List ℕ) (bp : List ℤ) (bv : List ℕ)
  | filled (id : ℕ) (price : ℤ) (volume : ℕ)
  | status (id : ℕ) (fillVol remVol : ℕ) (fees : ℤ)
  | err (id : ℕ)
  | ticks
deriving DecidableEq, Repr

def MyEvent.isFill : MyEvent → Bool
  | .filled _ _ _ => true
  | _ => false

/-- One serially processed event, with the outbound actions it emits. -/
def stepMy (sig : Frac → Frac) (e : MyEvent) (s : MyState) : MyState × List Act :=
  match e with
  | .book instr seq ap av bp bv => on_order_book_update sig instr seq ap av bp bv s
  | .filled id pr v => on_order_filled id pr v s
  | .status id fv rv fees => (on_order_status id fv rv fees s, [])
  | .err id => (on_error id s, [])
  | .ticks => (s, [])

/-- Run a list of events, returning the final state. -/
def runMy (sig : Frac → Frac) (evs : List MyEvent) (s : MyState) : MyState :=
  evs.foldl (fun t e => (stepMy sig e t).1) s

/-- Run a list of events, also accumulating every emitted action. -/
def runActs (sig : Frac → Frac) (evs : List MyEvent) (s : MyState) : MyState × List Act :=
  evs.foldl (fun p e => let r := stepMy sig e p.1; (r.1, p.2 ++ r.2)) (s, [])

/-- The sigmoid model used by all concrete traces: they only evaluate the
sigmoid at argument `0`, where the source's `1 / (1 + exp(0))` is exactly
`1/2`, also in floating point. -/
def sigHalf : Frac → Frac := fun _ => ⟨1, 2⟩

/- Embedding of `newautotrader.py`.  Its Python sets `self.bids` /
`self.asks` are lists of distinct order ids.  The unused pandas series and
`np.mean` values of the book handler (computed but never read) are
omitted. -/

/-- Stable insertion into a descending list (`sorted(-, reverse=True)`). -/
def insDesc (x : ℤ) : List ℤ → List ℤ
  | [] => [x]
  | y :: ys => if y < x then x :: y :: ys else y :: insDesc x ys

def sortDesc (l : List ℤ) : List ℤ := l.foldr insDesc []

/-- Stable insertion into an ascending list (`sorted(-)`). -/
def insAsc (x : ℤ) : List ℤ → List ℤ
  | [] => [x]
  | y :: ys => if x < y then x :: y :: ys else y :: insAsc x ys

def sortAsc (l : List ℤ) : List ℤ := l.foldr insAsc []

/-- Python's `l[-n:]`. -/
def takeLast (n : ℕ) (l : List ℤ) : List ℤ := l.drop (l.length - n)

/-- The source's successive `pop(0), pop(1), pop(2), pop(3), pop(4)` on a
101-element list: each pop reindexes the list before the next one. -/
def popSeq (l : List ℤ) : List ℤ :=
  ((((l.eraseIdx 0).eraseIdx 1).eraseIdx 2).eraseIdx 3).eraseIdx 4

/-- The mutable state of `newautotrader.py`'s `AutoTrader`. -/
structure NewState where
  nextId : ℕ
  bids : List ℕ
  asks : List ℕ
  ask_id : ℕ
  ask_price : ℤ
  bid_id : ℕ
  bid_price : ℤ
  position : ℤ
  bidprices : List ℤ
  askprices : List ℤ
  last_order_prices : List ℤ
  activeorder : ℤ
  last_sold : ℤ
deriving DecidableEq, Repr

def initNew : NewState :=
  { nextId := 1, bids := [], asks := [], ask_id := 0, ask_price := 0,
    bid_id := 0, bid_price := 0, position := 0, bidprices := [],
    askprices := [], last_order_prices := [], activeorder := 0, last_sold := 0 }

/-- The history-accumulation step of `newautotrader.py`'s book handler:
append the nonzero ladder prices, each ladder sorted in descending order,
to the rolling bid/ask price histories. -/
def newAccum (ap bp : List ℤ) (s : NewState) : NewState :=
  { s with bidprices := s.bidprices ++ (sortDesc bp).filter (fun x => x ≠ 0),
           askprices := s.askprices ++ (sortDesc ap).filter (fun x => x ≠ 0) }

/-- The history-trimming step: when a history holds exactly 101 entries,
drop five of them by the source's successive pops, then re-sort the bid
history descending and the ask history ascending. -/
def newTrim (s : NewState) : NewState :=
  let s1 := if s.bidprices.length = 101 then { s with bidprices := popSeq s.bidprices } else s
  let s2 := if s1.askprices.length = 101 then { s1 with askprices := popSeq s1.askprices } else s1
  { s2 with bidprices := sortDesc s2.bidprices, askprices := sortAsc s2.askprices }

/-- The trend signals and trade-direction decision of the book handler:
`some (isBuy, order_price)` if an order should be placed, `none` when the
trend signs call for no order.  `price_adjustment` is the source's
`-1 * position * 100 / 10` and `int(...)` truncates towards zero. -/
def newDir (ap bp : List ℤ) (s : NewState) : Option (Bool × ℤ) :=
  let bid_trend : Frac :=
    Frac.ofInt ((s.bidprices.take 10).sum) / ⟨10, 1⟩
      - Frac.ofInt ((takeLast 10 s.bidprices).sum) / ⟨10, 1⟩
  let ask_trend : Frac :=
    Frac.ofInt ((takeLast 10 s.askprices).sum) / ⟨10, 1⟩
      - Frac.ofInt ((s.askprices.take 10).sum) / ⟨10, 1⟩
  let price_adjustment : Frac := Frac.ofInt (-1 * s.position) * ⟨100, 1⟩ / ⟨10, 1⟩
  if Frac.ltB ⟨0, 1⟩ bid_trend && Frac.ltB ⟨0, 1⟩ ask_trend then
    some (true, intTrunc (if ap.getD 0 0 ≠ 0
      then Frac.ofInt (ap.getD 0 0) + price_adjustment else ⟨0, 1⟩))
  else if Frac.ltB ⟨0, 1⟩ bid_trend && Frac.ltB ask_trend ⟨0, 1⟩ then
    some (true, intTrunc (if bp.getD 0 0 ≠ 0
      then Frac.ofInt (bp.getLast?.getD 0) + price_adjustment else ⟨0, 1⟩))
  else if Frac.ltB bid_trend ⟨0, 1⟩ && Frac.ltB ⟨0, 1⟩ ask_trend then
    some (false, intTrunc (if ap.getD 0 0 ≠ 0
      then Frac.ofInt (ap.getD 0 0) + price_adjustment else ⟨0, 1⟩))
  else none

/-- The order-placement step of the book handler.  A buy decision with no
active order first looks for an accumulated buy price that the current
best ask beats by 5% (the source's float literal `1.05` is modelled as
`21/20`; no theorem below depends on that hairline comparison) and
re-sells the accumulated lots; otherwise it places a ten-lot buy, subject
to the position-limit and last-sold guards.  A sell decision places a
ten-lot sell while the position is above the negative limit. -/
def newQuote (isBuy : Bool) (order_price : ℤ) (ap : List ℤ) (av bv : List ℕ)
    (s : NewState) : NewState × List Act :=
  let order_size : ℤ := min (bv.getD 0 0 : ℤ) (av.getD 0 0 : ℤ)
  let order_id := s.nextId
  let s := { s with nextId := s.nextId + 1 }
  if isBuy && s.activeorder == 0 then
    let s := { s with bid_id := order_id }
    match s.last_order_prices.find?
        (fun i => (Frac.ofInt i * ⟨21, 20⟩).leB (Frac.ofInt (ap.getD 0 0))) with
    | some i =>
      let lenOfSamePrices := s.last_order_prices.count i
      ({ s with activeorder := 1, asks := addSetN order_id s.asks,
                last_order_prices := s.last_order_prices.filter (fun x => x ≠ i),
                last_sold := ap.getD 0 0 },
       [Act.insert order_id .sell (ap.getD 0 0) (LOT_SIZE * lenOfSamePrices)])
    | none =>
      if POSITION_LIMIT < s.position + LOT_SIZE then
        let osize := s.position + LOT_SIZE - POSITION_LIMIT
        if 0 < osize then (s, [])
        else
          ({ s with activeorder := 1,
                    last_order_prices := s.last_order_prices ++ [order_price] },
           [Act.insert order_id .buy (order_price * TICK_SIZE_IN_CENTS) osize])
      else if s.last_sold ≤ order_price ∧ s.last_sold ≠ 0 then (s, [])
      else
        let s := if s.last_order_prices.length = 0 then { s with last_sold := 0 } else s
        ({ s with activeorder := 1, bids := addSetN order_id s.bids,
                  last_order_prices := s.last_order_prices ++ [order_price] },
         [Act.insert order_id .buy (order_price * TICK_SIZE_IN_CENTS) LOT_SIZE])
  else if !isBuy && decide (-POSITION_LIMIT < s.position) then
    ({ s with ask_id := order_id, activeorder := 1, asks := addSetN order_id s.asks },
     [Act.insert order_id .sell order_price LOT_SIZE])
  else (s, [])

/-- `on_order_book_update_message` of `newautotrader.py`.  Only
instrument-0 (future) ticks are processed: accumulate the nonzero ladder
prices into rolling histories; once both histories exceed 100 entries,
trim and re-sort them, derive the trend signals and place at most one
order.  The unused pandas series and `np.mean` values of the source
(computed but never read) are omitted. -/
def newBook (instr seq : ℕ) (ap : List ℤ) (av : List ℕ) (bp : List ℤ) (bv : List ℕ)
    (s : NewState) : NewState × List Act :=
  if instr = 0 then
    let sa := newAccum ap bp s
    if sa.bidprices.length ≤ 100 ∨ sa.askprices.length ≤ 100 then (sa, [])
    else
      let st := newTrim sa
      match newDir ap bp st with
      | none => (st, [])
      | some (isBuy, order_price) => newQuote isBuy order_price ap av bv st
  else (s, [])

/-- `on_order_filled_message` of `newautotrader.py`: like the other
strategy, but the filled order is removed from its set and the
active-order flag cleared. -/
def newFilled (id : ℕ) (price : ℤ) (volume : ℕ) (s : NewState) : NewState × List Act :=
  if id ∈ s.bids then
    ({ s with position := s.position + volume, bids := s.bids.filter (fun x => x ≠ id),
              nextId := s.nextId + 1, activeorder := 0 },
     [Act.hedge s.nextId .sell MIN_BID_NEAREST_TICK (volume : ℤ)])
  else if id ∈ s.asks then
    ({ s with position := s.position - volume, asks := s.asks.filter (fun x => x ≠ id),
              nextId := s.nextId + 1, activeorder := 0 },
     [Act.hedge s.nextId .buy MAX_ASK_NEAREST_TICK (volume : ℤ)])
  else (s, [])

/-- `on_order_status_message` of `newautotrader.py`. -/
def newStatus (id : ℕ) (fillVol remVol : ℕ) (fees : ℤ) (s : NewState) : NewState :=
  if remVol = 0 then
    let s1 := if id = s.bid_id then { s with bid_id := 0 }
              else if id = s.ask_id then { s with ask_id := 0 }
              else s
    { s1 with bids := s1.bids.filter (fun x => x ≠ id), asks := s1.asks.filter (fun x => x ≠ id) }
  else s

/-- `on_error_message` of `newautotrader.py`. -/
def newError (id : ℕ) (s : NewState) : NewState :=
  if id ≠ 0 ∧ (id ∈ s.bids ∨ id ∈ s.asks) then newStatus id 0 0 0 s else s

/-- The inbound events handled by `newautotrader.py`; `hedgeFilled` and
`ticks` are only logged by the source. -/
inductive NewEvent where
  | book (instrument seq : ℕ) (ap : List ℤ) (av : List ℕ) (bp : List ℤ) (bv : List ℕ)
  | filled (id : ℕ) (price : ℤ) (volume : ℕ)
  | status (id : ℕ) (fillVol remVol : ℕ) (fees : ℤ)
  | err (id : ℕ)
  | hedgeFilled (id : ℕ) (price : ℤ) (volume : ℕ)
  | ticks
deriving DecidableEq, Repr

def NewEvent.isFill : NewEvent → Bool
  | .filled _ _ _ => true
  | _ => false

def stepNew (e : NewEvent) (s : NewState) : NewState × List Act :=
  match e with
  | .book instr seq ap av bp bv => newBook instr seq ap av bp bv s
  | .filled id pr v => newFilled id pr v s
  | .status id fv rv fees => (newStatus id fv rv fees s, [])
  | .err id => (newError id s, [])
  | .hedgeFilled _ _ _ => (s, [])
  | .ticks => (s, [])

def runNew (evs : List NewEvent) (s : NewState) : NewState :=
  evs.foldl (fun t e => (stepNew e t).1) s

/-! ## Invariants and instrumented runs used by the theorems -/

/-- The reachable-state invariant of `myautotrader.py`: order-map keys are
unique, below the id counter, and the two maps are disjoint; the rate
counter stays within `[0, RATELIMIT]`. -/
structure InvM (s : MyState) : Prop where
  ndb : (keysOf s.bids).Nodup
  nda : (keysOf s.asks).Nodup
  fb : ∀ k ∈ keysOf s.bids, k < s.nextId
  fa : ∀ k ∈ keysOf s.asks, k < s.nextId
  disj : ∀ k ∈ keysOf s.bids, k ∉ keysOf s.asks
  c0 : 0 ≤ s.count
  c24 : s.count ≤ RATELIMIT

/-- A rate window starts afresh on an ETF book tick whose tick counter,
once incremented, is a multiple of four (the handler then sets
`count := 0` before doing anything else). -/
def windowResets (instr : ℕ) (av bv : List ℕ) (s : MyState) : Prop :=
  ¬(bv.getD 0 0 = 0 ∧ av.getD 0 0 = 0) ∧ instr ≠ 0 ∧ (s.tick + 1) % 4 = 0

instance (instr : ℕ) (av bv : List ℕ) (s : MyState) : Decidable (windowResets instr av bv s) :=
  inferInstanceAs (Decidable (_ ∧ _ ∧ _))

/-- Instrumented run for the rate-budget claim: the second component
counts the insert/cancel actions emitted since the most recent rate-window
reset. -/
def windowStep (sig : Frac → Frac) (p : MyState × ℕ) (e : MyEvent) : MyState × ℕ :=
  let r := stepMy sig e p.1
  match e with
  | .book instr _ _ av _ bv =>
      (r.1, if windowResets instr av bv p.1 then countIC r.2 else p.2 + countIC r.2)
  | _ => (r.1, p.2 + countIC r.2)

def windowRun (sig : Frac → Frac) (evs : List MyEvent) (p : MyState × ℕ) : MyState × ℕ :=
  evs.foldl (windowStep sig) p


/-! ## Concrete books, traces and states used by witnesses and counterexamples -/

/-- A future-instrument tick with book bid 10 / ask 12 (both 30 lots);
its weighted mid-price is exactly 11, also in floating point. -/
def tkFut : MyEvent :=
  .book 0 1 [12, 0, 0, 0, 0] [30, 0, 0, 0, 0] [10, 0, 0, 0, 0] [30, 0, 0, 0, 0]

/-- The same book delivered as an ETF tick. -/
def tkEtf : MyEvent :=
  .book 1 2 [12, 0, 0, 0, 0] [30, 0, 0, 0, 0] [10, 0, 0, 0, 0] [30, 0, 0, 0, 0]

/-- A full-fill status message for order `k` (10 lots filled, none left). -/
def tkDone (k : ℕ) : MyEvent := .status k 10 0 0

/-- Nine quote cycles, each fully venue-plausible: the ETF tick tracks a
bid entry (quoted volume 200, real order size 10) and an ask entry
(tracked volume 0, real order size 10); both real orders then fill for ten
lots (position returns to 0, the ask entry's tracked volume drops to -10),
and the bid's zero-remaining status closes it while the ask statuses are
delayed.  A tenth ETF tick then quotes again, though nine entries are
already tracked. -/
def traceCount : List MyEvent :=
  [tkFut,
   tkEtf, .filled 1 1000 10, .filled 2 1200 10, tkDone 1,
   tkEtf, .filled 5 1000 10, .filled 6 1200 10, tkDone 5,
   tkEtf, .filled 9 1000 10, .filled 10 1200 10, tkDone 9,
   tkEtf, .filled 13 1000 10, .filled 14 1200 10, tkDone 13,
   tkEtf, .filled 17 1000 10, .filled 18 1200 10, tkDone 17,
   tkEtf, .filled 21 1000 10, .filled 22 1200 10, tkDone 21,
   tkEtf, .filled 25 1000 10, .filled 26 1200 10, tkDone 25,
   tkEtf, .filled 29 1000 10, .filled 30 1200 10, tkDone 29,
   tkEtf, .filled 33 1000 10, .filled 34 1200 10, tkDone 33,
   tkEtf]

/-- One quote cycle whose bid and ask orders both fill for ten lots (so
the ask entry, tracked at volume 0, goes to -10), the bid closed promptly
by its status, the ask status delayed until after the next quote tick. -/
def traceVolume : List MyEvent :=
  [tkFut, tkEtf, .filled 1 1000 10, .filled 2 1200 10, tkDone 1, tkEtf, tkDone 2]

/-- A degenerate cheap book (both best prices 1, weighted mid 1): the bid
target `round(1 - 0.6)` is 0. -/
def tkFutLow : MyEvent :=
  .book 0 1 [1, 0, 0, 0, 0] [30, 0, 0, 0, 0] [1, 0, 0, 0, 0] [30, 0, 0, 0, 0]

def tkEtfLow : MyEvent :=
  .book 1 2 [1, 0, 0, 0, 0] [30, 0, 0, 0, 0] [1, 0, 0, 0, 0] [30, 0, 0, 0, 0]

def tracePrice : List MyEvent := [tkFutLow, tkEtfLow]

/-- An engine state with recorded quote prices 10/12 and both tracked
orders already closed, facing a shifted book (best bid 12, best ask 14,
weighted mid 13) whose reconciliation targets are bid 12 / ask 14. -/
def rcState : MyState :=
  { nextId := 21, bids := [], asks := [], ask_id := 0, bid_id := 0,
    ask_price := 12, bid_price := 10, position := 0,
    ftrmid := ⟨39600, 3600⟩, wmp := ⟨39600, 3600⟩,
    ask_prices := [12, 0, 0, 0, 0], ask_volumes := [30, 0, 0, 0, 0],
    bid_prices := [10, 0, 0, 0, 0], bid_volumes := [30, 0, 0, 0, 0],
    bestBid := 10, bestAsk := 12, awaitingCancel := [], count := 6, tick := 10 }

/-- A long-inventory state (position 90) tracking one ten-lot bid. -/
def posState : MyState := { initMy with position := 90, bids := [(1, ⟨10, 10⟩)], nextId := 5 }

/-- A state already tracking 150 lots of quoted volume. -/
def fullState : MyState := { initMy with bids := [(1, ⟨10, 150⟩)], nextId := 2 }

/-- A state tracking one twenty-lot ask. -/
def askState : MyState := { initMy with asks := [(2, ⟨12, 20⟩)], nextId := 9 }

/-- A small state of the second strategy tracking bid 1 and ask 2. -/
def newPosState : NewState := { initNew with bids := [1], asks := [2], nextId := 7, position := 40 }

/-! ## Basic association-list and action-list lemmas -/

theorem containsA_iff (k : ℕ) (l : List (ℕ × Order)) :
    containsA k l = true ↔ k ∈ keysOf l := by
  simp [containsA, keysOf, List.any_eq_true, List.mem_map]

theorem insertA_fresh (k : ℕ) (v : Order) (l : List (ℕ × Order))
    (h : containsA k l = false) : insertA k v l = l ++ [(k, v)] := by
  simp [insertA, h]

theorem keysOf_append_single (l : List (ℕ × Order)) (p : ℕ × Order) :
    keysOf (l ++ [p]) = keysOf l ++ [p.1] := by
  simp [keysOf]

theorem volSum_append_single (l : List (ℕ × Order)) (p : ℕ × Order) :
    volSum (l ++ [p]) = volSum l + p.2.volume := by
  simp [volSum]

theorem keysOf_insertA_mem (k : ℕ) (v : Order) (l : List (ℕ × Order))
    (h : containsA k l = true) : keysOf (insertA k v l) = keysOf l := by
  simp only [insertA, h, if_pos, keysOf, List.map_map]
  apply List.map_congr_left
  intro p _
  by_cases hp : p.1 = k <;> simp [hp]

theorem keysOf_eraseA_sub (k x : ℕ) (l : List (ℕ × Order))
    (h : x ∈ keysOf (eraseA k l)) : x ∈ keysOf l :=
  (((List.filter_sublist l).map Prod.fst).subset) h

theorem nodup_keysOf_eraseA (k : ℕ) (l : List (ℕ × Order))
    (h : (keysOf l).Nodup) : (keysOf (eraseA k l)).Nodup :=
  List.Nodup.sublist ((List.filter_sublist l).map Prod.fst) h

theorem countIC_all_cancel (l : List Act) (h : ∀ a ∈ l, a.isCancel = true) :
    countIC l = l.length := by
  unfold countIC
  rw [List.filter_eq_self.mpr]
  intro a ha
  simp [h a ha]

theorem countIC_append (l l' : List Act) : countIC (l ++ l') = countIC l + countIC l' := by
  simp [countIC, List.filter_append]

/-! ## Characterisation of the sweep, price and trade functions -/

theorem sweepList_spec (cond : Order → Bool) :
    ∀ (l : List (ℕ × Order)) (c : ℤ) (aw : List ℕ),
      (sweepList cond l c aw).cnt = c + (sweepList cond l c aw).acts.length ∧
      (∀ a ∈ (sweepList cond l c aw).acts, a.isCancel = true) ∧
      (c ≤ RATELIMIT → (sweepList cond l c aw).cnt ≤ RATELIMIT) ∧
      (0 ≤ c → 0 ≤ (sweepList cond l c aw).cnt) := by
  intro l
  induction l with
  | nil => intro c aw; simp [sweepList]
  | cons p rest ih =>
      intro c aw
      by_cases h1 : cond p.2 = true
      · by_cases h2 : c < RATELIMIT
        · obtain ⟨ha, hb, hc, hd⟩ := ih (c + 1) (addSetN p.1 aw)
          simp only [sweepList, h1, if_pos, h2]
          refine ⟨?_, ?_, ?_, ?_⟩
          · simp only [List.length_cons, ha]; push_cast; ring
          · intro a hmem
            rcases List.mem_cons.mp hmem with h | h
            · subst h; rfl
            · exact hb a h
          · intro _; exact hc (by omega)
          · intro h0; exact hd (by omega)
        · simp only [sweepList, h1, if_pos, if_neg h2]
          refine ⟨by simp, by simp, fun h => h, fun h => h⟩
      · simp only [sweepList, if_neg h1]
        exact ih c aw

theorem ddt_bids (bb ba : ℤ) (s : MyState) : ((deleteDeadTrades bb ba s).1).bids = s.bids := by
  unfold deleteDeadTrades
  dsimp only
  split <;> rfl

theorem ddt_asks (bb ba : ℤ) (s : MyState) : ((deleteDeadTrades bb ba s).1).asks = s.asks := by
  unfold deleteDeadTrades
  dsimp only
  split <;> rfl

theorem ddt_nextId (bb ba : ℤ) (s : MyState) : ((deleteDeadTrades bb ba s).1).nextId = s.nextId := by
  unfold deleteDeadTrades
  dsimp only
  split <;> rfl

theorem ddt_position (bb ba : ℤ) (s : MyState) :
    ((deleteDeadTrades bb ba s).1).position = s.position := by
  unfold deleteDeadTrades
  dsimp only
  split <;> rfl

theorem ddt_wmp (bb ba : ℤ) (s : MyState) : ((deleteDeadTrades bb ba s).1).wmp = s.wmp := by
  unfold deleteDeadTrades
  dsimp only
  split <;> rfl

theorem ddt_activeVolume (bb ba : ℤ) (s : MyState) :
    activeVolume ((deleteDeadTrades bb ba s).1) = activeVolume s := by
  unfold activeVolume
  rw [ddt_bids, ddt_asks]

theorem ddt_count (bb ba : ℤ) (s : MyState) :
    ((deleteDeadTrades bb ba s).1).count = s.count + countIC (deleteDeadTrades bb ba s).2 ∧
    (s.count ≤ RATELIMIT → ((deleteDeadTrades bb ba s).1).count ≤ RATELIMIT) ∧
    (0 ≤ s.count → 0 ≤ ((deleteDeadTrades bb ba s).1).count) := by
  unfold deleteDeadTrades
  dsimp only
  obtain ⟨h1a, h1b, h1c, h1d⟩ :=
    sweepList_spec (deadBid s.ftrmid bb (ba - bb)) s.bids s.count s.awaitingCancel
  split
  · refine ⟨?_, fun h => h1c h, fun h => h1d h⟩
    rw [countIC_all_cancel _ h1b]
    exact h1a
  · obtain ⟨h2a, h2b, h2c, h2d⟩ :=
      sweepList_spec (deadAsk s.ftrmid ba (ba - bb)) s.asks
        (sweepList (deadBid s.ftrmid bb (ba - bb)) s.bids s.count s.awaitingCancel).cnt
        (sweepList (deadBid s.ftrmid bb (ba - bb)) s.bids s.count s.awaitingCancel).aw
    refine ⟨?_, fun h => h2c (h1c h), fun h => h2d (h1d h)⟩
    rw [countIC_all_cancel]
    · simp only [List.length_append]
      push_cast
      omega
    · intro a ha
      rcases List.mem_append.mp ha with h | h
      · exact h1b a h
      · exact h2b a h

theorem ddt_acts_cancel (bb ba : ℤ) (s : MyState) :
    ∀ a ∈ (deleteDeadTrades bb ba s).2, a.isCancel = true := by
  unfold deleteDeadTrades
  dsimp only
  obtain ⟨h1a, h1b, h1c, h1d⟩ :=
    sweepList_spec (deadBid s.ftrmid bb (ba - bb)) s.bids s.count s.awaitingCancel
  split
  · exact h1b
  · obtain ⟨h2a, h2b, h2c, h2d⟩ :=
      sweepList_spec (deadAsk s.ftrmid ba (ba - bb)) s.asks
        (sweepList (deadBid s.ftrmid bb (ba - bb)) s.bids s.count s.awaitingCancel).cnt
        (sweepList (deadBid s.ftrmid bb (ba - bb)) s.bids s.count s.awaitingCancel).aw
    intro a ha
    rcases List.mem_append.mp ha with h | h
    · exact h1b a h
    · exact h2b a h

theorem managePrices_count (s : MyState) (m : Frac) (bb ba : ℤ) :
    ((managePrices s m bb ba).1).count = s.count := rfl

theorem managePrices_bids (s : MyState) (m : Frac) (bb ba : ℤ) :
    ((managePrices s m bb ba).1).bids = s.bids := rfl

theorem managePrices_asks (s : MyState) (m : Frac) (bb ba : ℤ) :
    ((managePrices s m bb ba).1).asks = s.asks := rfl

theorem managePrices_nextId (s : MyState) (m : Frac) (bb ba : ℤ) :
    ((managePrices s m bb ba).1).nextId = s.nextId := rfl

theorem managePrices_position (s : MyState) (m : Frac) (bb ba : ℤ) :
    ((managePrices s m bb ba).1).position = s.position := rfl

theorem managePrices_bid_price_eq (s : MyState) (m : Frac) (bb ba : ℤ) :
    ((managePrices s m bb ba).1).bid_price = (managePrices s m bb ba).2.2 := rfl

theorem managePrices_ask_price_eq (s : MyState) (m : Frac) (bb ba : ℤ) :
    ((managePrices s m bb ba).1).ask_price = (managePrices s m bb ba).2.1 := rfl

/-- Full characterisation of `makeTrade`: since `managePrices` stores the
target prices in `bid_price` / `ask_price` before `makeTrade` compares the
targets against those same fields, the two cancel branches can never fire;
if the rate gate passes, exactly the two fresh inserts are sent. -/
theorem makeTrade_eq (sig : Frac → Frac) (s : MyState) (m : Frac)
    (ap : List ℤ) (av : List ℕ) (bp : List ℤ) (bv : List ℕ) (bb ba : ℤ) :
    makeTrade sig s m ap av bp bv bb ba =
    if s.count < RATELIMIT - 1 then
      ({ (managePrices s m bb ba).1 with
          count := s.count + 2, nextId := s.nextId + 2,
          bids := insertA s.nextId
            ⟨(managePrices s m bb ba).2.2, (manageVolumes sig s m).2⟩ s.bids,
          asks := insertA (s.nextId + 1)
            ⟨(managePrices s m bb ba).2.1, (manageVolumes sig s m).1⟩ s.asks },
       [Act.insert s.nextId .buy ((managePrices s m bb ba).2.2 * TICK_SIZE_IN_CENTS) LOT_SIZE,
        Act.insert (s.nextId + 1) .sell ((managePrices s m bb ba).2.1 * TICK_SIZE_IN_CENTS) LOT_SIZE])
    else ((managePrices s m bb ba).1, []) := by
  unfold makeTrade
  dsimp only
  simp only [managePrices_count, managePrices_bids, managePrices_asks, managePrices_nextId,
    managePrices_bid_price_eq, managePrices_ask_price_eq, beq_self_eq_true, Bool.true_or,
    Bool.not_true, Bool.and_false, Bool.false_eq_true, if_false, List.nil_append]

/-! ## Snapshot-store, volume and invariant lemmas -/

theorem bookStore_bids (ap : List ℤ) (av : List ℕ) (bp : List ℤ) (bv : List ℕ) (w : Frac)
    (s : MyState) : (bookStore ap av bp bv w s).bids = s.bids := by
  unfold bookStore
  dsimp only
  split <;> rfl

theorem bookStore_asks (ap : List ℤ) (av : List ℕ) (bp : List ℤ) (bv : List ℕ) (w : Frac)
    (s : MyState) : (bookStore ap av bp bv w s).asks = s.asks := by
  unfold bookStore
  dsimp only
  split <;> rfl

theorem bookStore_nextId (ap : List ℤ) (av : List ℕ) (bp : List ℤ) (bv : List ℕ) (w : Frac)
    (s : MyState) : (bookStore ap av bp bv w s).nextId = s.nextId := by
  unfold bookStore
  dsimp only
  split <;> rfl

theorem bookStore_position (ap : List ℤ) (av : List ℕ) (bp : List ℤ) (bv : List ℕ) (w : Frac)
    (s : MyState) : (bookStore ap av bp bv w s).position = s.position := by
  unfold bookStore
  dsimp only
  split <;> rfl

theorem bookStore_count (ap : List ℤ) (av : List ℕ) (bp : List ℤ) (bv : List ℕ) (w : Frac)
    (s : MyState) :
    (bookStore ap av bp bv w s).count = if (s.tick + 1) % 4 = 0 then 0 else s.count := by
  unfold bookStore
  dsimp only
  split
  · rename_i h
    simp [h]
  · rename_i h
    simp [h]

theorem bookStore_activeVolume (ap : List ℤ) (av : List ℕ) (bp : List ℤ) (bv : List ℕ)
    (w : Frac) (s : MyState) : activeVolume (bookStore ap av bp bv w s) = activeVolume s := by
  unfold activeVolume
  rw [bookStore_bids, bookStore_asks]

theorem manageVolumes_sum (sig : Frac → Frac) (t : MyState) (m : Frac) :
    (manageVolumes sig t m).1 + (manageVolumes sig t m).2 = 0 ∨
    (manageVolumes sig t m).1 + (manageVolumes sig t m).2
      = ACTIVE_VOLUME_LIMIT - activeVolume t := by
  unfold manageVolumes
  dsimp only
  split
  · left; rfl
  · split
    · left; rfl
    · split
      · left; rfl
      · right
        split <;> split <;> dsimp only <;> ring

theorem fresh_not_contains_bids (s : MyState) (h : InvM s) :
    containsA s.nextId s.bids = false := by
  cases hc : containsA s.nextId s.bids
  · rfl
  · exact absurd (h.fb _ ((containsA_iff _ _).mp hc)) (lt_irrefl _)

theorem fresh_not_contains_asks (s : MyState) (h : InvM s) :
    containsA (s.nextId + 1) s.asks = false := by
  cases hc : containsA (s.nextId + 1) s.asks
  · rfl
  · exact absurd (h.fa _ ((containsA_iff _ _).mp hc)) (by omega)

theorem inv_makeTrade (sig : Frac → Frac) (s : MyState) (m : Frac)
    (ap : List ℤ) (av : List ℕ) (bp : List ℤ) (bv : List ℕ) (bb ba : ℤ)
    (h : InvM s) : InvM (makeTrade sig s m ap av bp bv bb ba).1 := by
  rw [makeTrade_eq]
  split
  · rename_i hc
    rw [insertA_fresh _ _ _ (fresh_not_contains_bids s h),
        insertA_fresh _ _ _ (fresh_not_contains_asks s h)]
    refine ⟨?_, ?_, ?_, ?_, ?_, ?_, ?_⟩
    · show (keysOf (s.bids ++ [(s.nextId, _)])).Nodup
      rw [keysOf_append_single]
      refine List.nodup_append.mpr ⟨h.ndb, List.nodup_singleton _, ?_⟩
      intro a ha hb
      rw [List.mem_singleton] at hb
      subst hb
      exact absurd (h.fb _ ha) (lt_irrefl _)
    · show (keysOf (s.asks ++ [(s.nextId + 1, _)])).Nodup
      rw [keysOf_append_single]
      refine List.nodup_append.mpr ⟨h.nda, List.nodup_singleton _, ?_⟩
      intro a ha hb
      rw [List.mem_singleton] at hb
      subst hb
      exact absurd (h.fa _ ha) (by omega)
    · show ∀ k ∈ keysOf (s.bids ++ [(s.nextId, _)]), k < s.nextId + 2
      rw [keysOf_append_single]
      intro k hk
      rcases List.mem_append.mp hk with hk | hk
      · have := h.fb k hk; omega
      · rw [List.mem_singleton] at hk; omega
    · show ∀ k ∈ keysOf (s.asks ++ [(s.nextId + 1, _)]), k < s.nextId + 2
      rw [keysOf_append_single]
      intro k hk
      rcases List.mem_append.mp hk with hk | hk
      · have := h.fa k hk; omega
      · rw [List.mem_singleton] at hk; omega
    · show ∀ k ∈ keysOf (s.bids ++ [(s.nextId, _)]), k ∉ keysOf (s.asks ++ [(s.nextId + 1, _)])
      rw [keysOf_append_single, keysOf_append_single]
      intro k hk hmem
      rcases List.mem_append.mp hmem with hm | hm
      · rcases List.mem_append.mp hk with hb | hb
        · exact h.disj k hb hm
        · rw [List.mem_singleton] at hb
          subst hb
          exact absurd (h.fa _ hm) (lt_irrefl _)
      · rw [List.mem_singleton] at hm
        subst hm
        rcases List.mem_append.mp hk with hb | hb
        · have := h.fb _ hb; omega
        · rw [List.mem_singleton] at hb; omega
    · show (0 : ℤ) ≤ s.count + 2
      have := h.c0; omega
    · show s.count + 2 ≤ RATELIMIT
      unfold RATELIMIT at *
      omega
  · exact ⟨h.ndb, h.nda, h.fb, h.fa, h.disj, h.c0, h.c24⟩

theorem inv_ddt (bb ba : ℤ) (s : MyState) (h : InvM s) :
    InvM (deleteDeadTrades bb ba s).1 := by
  obtain ⟨hcnt, hle, hge⟩ := ddt_count bb ba s
  refine ⟨?_, ?_, ?_, ?_, ?_, hge h.c0, hle h.c24⟩
  · rw [ddt_bids]; exact h.ndb
  · rw [ddt_asks]; exact h.nda
  · rw [ddt_bids, ddt_nextId]; exact h.fb
  · rw [ddt_asks, ddt_nextId]; exact h.fa
  · rw [ddt_bids, ddt_asks]; exact h.disj

theorem inv_bookStore (ap : List ℤ) (av : List ℕ) (bp : List ℤ) (bv : List ℕ) (w : Frac)
    (s : MyState) (h : InvM s) : InvM (bookStore ap av bp bv w s) := by
  refine ⟨?_, ?_, ?_, ?_, ?_, ?_, ?_⟩
  · rw [bookStore_bids]; exact h.ndb
  · rw [bookStore_asks]; exact h.nda
  · rw [bookStore_bids, bookStore_nextId]; exact h.fb
  · rw [bookStore_asks, bookStore_nextId]; exact h.fa
  · rw [bookStore_bids, bookStore_asks]; exact h.disj
  · rw [bookStore_count]
    split
    · exact le_refl 0
    · exact h.c0
  · rw [bookStore_count]
    split
    · unfold RATELIMIT; omega
    · exact h.c24

theorem inv_book (sig : Frac → Frac) (instr seq : ℕ)
    (ap : List ℤ) (av : List ℕ) (bp : List ℤ) (bv : List ℕ) (s : MyState) (h : InvM s) :
    InvM (on_order_book_update sig instr seq ap av bp bv s).1 := by
  unfold on_order_book_update
  dsimp only
  split
  · exact h
  · split
    · exact ⟨h.ndb, h.nda, h.fb, h.fa, h.disj, h.c0, h.c24⟩
    · split
      · exact inv_makeTrade _ _ _ _ _ _ _ _ _ (inv_ddt _ _ _ (inv_bookStore _ _ _ _ _ _ h))
      · exact inv_ddt _ _ _ (inv_bookStore _ _ _ _ _ _ h)

theorem inv_filled (id : ℕ) (pr : ℤ) (v : ℕ) (s : MyState) (h : InvM s) :
    InvM (on_order_filled id pr v s).1 := by
  unfold on_order_filled
  dsimp only
  split
  · rename_i hc
    refine ⟨?_, ?_, ?_, ?_, ?_, h.c0, h.c24⟩
    · rw [keysOf_insertA_mem _ _ _ hc]; exact h.ndb
    · exact h.nda
    · rw [keysOf_insertA_mem _ _ _ hc]
      intro k hk
      show k < s.nextId + 1
      have := h.fb k hk; omega
    · intro k hk
      show k < s.nextId + 1
      have := h.fa k hk; omega
    · rw [keysOf_insertA_mem _ _ _ hc]; exact h.disj
  · split
    · rename_i hc
      refine ⟨?_, ?_, ?_, ?_, ?_, h.c0, h.c24⟩
      · exact h.ndb
      · rw [keysOf_insertA_mem _ _ _ hc]; exact h.nda
      · intro k hk
        show k < s.nextId + 1
        have := h.fb k hk; omega
      · rw [keysOf_insertA_mem _ _ _ hc]
        intro k hk
        show k < s.nextId + 1
        have := h.fa k hk; omega
      · rw [keysOf_insertA_mem _ _ _ hc]; exact h.disj
    · exact h

theorem inv_erase_pair (id : ℕ) (s : MyState) (t : MyState) (h : InvM s)
    (hb : t.bids = eraseA id s.bids) (ha : t.asks = eraseA id s.asks)
    (hn : t.nextId = s.nextId) (hc : t.count = s.count) : InvM t := by
  refine ⟨?_, ?_, ?_, ?_, ?_, ?_, ?_⟩
  · rw [hb]; exact nodup_keysOf_eraseA _ _ h.ndb
  · rw [ha]; exact nodup_keysOf_eraseA _ _ h.nda
  · rw [hb, hn]
    exact fun k hk => h.fb k (keysOf_eraseA_sub _ _ _ hk)
  · rw [ha, hn]
    exact fun k hk => h.fa k (keysOf_eraseA_sub _ _ _ hk)
  · rw [hb, ha]
    exact fun k hk hm => h.disj k (keysOf_eraseA_sub _ _ _ hk) (keysOf_eraseA_sub _ _ _ hm)
  · rw [hc]; exact h.c0
  · rw [hc]; exact h.c24

theorem inv_status (id : ℕ) (fv rv : ℕ) (fees : ℤ) (s : MyState) (h : InvM s) :
    InvM (on_order_status id fv rv fees s) := by
  unfold on_order_status
  dsimp only
  split
  · split
    · exact inv_erase_pair id s _ h rfl rfl rfl rfl
    · split
      · exact inv_erase_pair id s _ h rfl rfl rfl rfl
      · exact inv_erase_pair id s _ h rfl rfl rfl rfl
  · exact h

theorem inv_error (id : ℕ) (s : MyState) (h : InvM s) : InvM (on_error id s) := by
  unfold on_error
  split
  · exact inv_status _ _ _ _ _ h
  · exact h

theorem stepMy_inv (sig : Frac → Frac) (e : MyEvent) (s : MyState) (h : InvM s) :
    InvM (stepMy sig e s).1 := by
  cases e with
  | book instr seq ap av bp bv => exact inv_book sig instr seq ap av bp bv s h
  | filled id pr v => exact inv_filled id pr v s h
  | status id fv rv fees => exact inv_status id fv rv fees s h
  | err id => exact inv_error id s h
  | ticks => exact h

theorem inv_initMy : InvM initMy := by
  refine ⟨?_, ?_, ?_, ?_, ?_, ?_, ?_⟩ <;> simp [initMy, keysOf, RATELIMIT]

theorem runMy_inv_aux (sig : Frac → Frac) :
    ∀ (evs : List MyEvent) (s : MyState), InvM s → InvM (runMy sig evs s) := by
  intro evs
  induction evs with
  | nil => intro s h; exact h
  | cons e rest ih =>
      intro s h
      exact ih _ (stepMy_inv sig e s h)

theorem runMy_inv (sig : Frac → Frac) (evs : List MyEvent) : InvM (runMy sig evs initMy) :=
  runMy_inv_aux sig evs initMy inv_initMy

theorem makeTrade_position (sig : Frac → Frac) (s : MyState) (m : Frac)
    (ap : List ℤ) (av : List ℕ) (bp : List ℤ) (bv : List ℕ) (bb ba : ℤ) :
    (makeTrade sig s m ap av bp bv bb ba).1.position = s.position := by
  rw [makeTrade_eq]
  split <;> rfl

theorem makeTrade_count_acts (sig : Frac → Frac) (s : MyState) (m : Frac)
    (ap : List ℤ) (av : List ℕ) (bp : List ℤ) (bv : List ℕ) (bb ba : ℤ) :
    (makeTrade sig s m ap av bp bv bb ba).1.count
        = s.count + countIC (makeTrade sig s m ap av bp bv bb ba).2 ∧
    (s.count ≤ RATELIMIT → (makeTrade sig s m ap av bp bv bb ba).1.count ≤ RATELIMIT) ∧
    (0 ≤ s.count → 0 ≤ (makeTrade sig s m ap av bp bv bb ba).1.count) := by
  rw [makeTrade_eq]
  split
  · rename_i hgate
    refine ⟨?_, ?_, ?_⟩
    · show s.count + 2 = s.count + (countIC [_, _] : ℤ)
      rfl
    · intro _
      show s.count + 2 ≤ RATELIMIT
      unfold RATELIMIT at *
      omega
    · intro h0
      show (0 : ℤ) ≤ s.count + 2
      omega
  · exact ⟨by show s.count = s.count + (0 : ℤ); omega, fun h => h, fun h => h⟩

theorem book_position (sig : Frac → Frac) (instr seq : ℕ)
    (ap : List ℤ) (av : List ℕ) (bp : List ℤ) (bv : List ℕ) (s : MyState) :
    (on_order_book_update sig instr seq ap av bp bv s).1.position = s.position := by
  unfold on_order_book_update
  dsimp only
  split
  · rfl
  · split
    · rfl
    · split
      · rw [makeTrade_position, ddt_position, bookStore_position]
      · rw [ddt_position, bookStore_position]

theorem status_position (id : ℕ) (fv rv : ℕ) (fees : ℤ) (s : MyState) :
    (on_order_status id fv rv fees s).position = s.position := by
  unfold on_order_status
  dsimp only
  split
  · split
    · rfl
    · split <;> rfl
  · rfl

theorem error_position (id : ℕ) (s : MyState) : (on_error id s).position = s.position := by
  unfold on_error
  split
  · rw [status_position]
  · rfl

theorem stepMy_position (sig : Frac → Frac) (e : MyEvent) (s : MyState)
    (h : e.isFill = false) : (stepMy sig e s).1.position = s.position := by
  cases e with
  | book instr seq ap av bp bv => exact book_position sig instr seq ap av bp bv s
  | filled id pr v => simp [MyEvent.isFill] at h
  | status id fv rv fees => exact status_position id fv rv fees s
  | err id => exact error_position id s
  | ticks => rfl

theorem filled_count (id : ℕ) (pr : ℤ) (v : ℕ) (s : MyState) :
    (on_order_filled id pr v s).1.count = s.count := by
  unfold on_order_filled
  dsimp only
  split
  · rfl
  · split <;> rfl

theorem filled_countIC (id : ℕ) (pr : ℤ) (v : ℕ) (s : MyState) :
    countIC (on_order_filled id pr v s).2 = 0 := by
  unfold on_order_filled
  dsimp only
  split
  · rfl
  · split <;> rfl

theorem status_count (id : ℕ) (fv rv : ℕ) (fees : ℤ) (s : MyState) :
    (on_order_status id fv rv fees s).count = s.count := by
  unfold on_order_status
  dsimp only
  split
  · split
    · rfl
    · split <;> rfl
  · rfl

theorem error_count (id : ℕ) (s : MyState) : (on_error id s).count = s.count := by
  unfold on_error
  split
  · rw [status_count]
  · rfl

theorem book_count_acts (sig : Frac → Frac) (instr seq : ℕ)
    (ap : List ℤ) (av : List ℕ) (bp : List ℤ) (bv : List ℕ) (s : MyState) :
    ((on_order_book_update sig instr seq ap av bp bv s).1.count : ℤ)
      = (if windowResets instr av bv s then 0 else s.count)
        + countIC (on_order_book_update sig instr seq ap av bp bv s).2 := by
  unfold on_order_book_update
  dsimp only
  split
  · rename_i hz
    rw [if_neg (fun hw => hw.1 hz)]
    show s.count = s.count + (countIC [] : ℤ)
    simp [countIC]
  · rename_i hz
    split
    · rename_i hi
      rw [if_neg (fun hw => hw.2.1 hi)]
      show s.count = s.count + (countIC [] : ℤ)
      simp [countIC]
    · rename_i hi
      have hw : windowResets instr av bv s ↔ (s.tick + 1) % 4 = 0 := by
        unfold windowResets
        constructor
        · exact fun hx => hx.2.2
        · exact fun hx => ⟨hz, hi, hx⟩
      split
      · rename_i hgate
        obtain ⟨hd1, _, _⟩ := ddt_count _ _ _
        obtain ⟨hm1, _, _⟩ := makeTrade_count_acts sig _ _ _ _ _ _ _ _
        rw [countIC_append]
        rw [hm1, hd1, bookStore_count]
        by_cases ht : (s.tick + 1) % 4 = 0
        · rw [if_pos (hw.mpr ht), if_pos ht]
          push_cast
          ring
        · rw [if_neg (fun hx => ht (hw.mp hx)), if_neg ht]
          push_cast
          ring
      · obtain ⟨hd1, _, _⟩ := ddt_count _ _ _
        rw [hd1, bookStore_count]
        by_cases ht : (s.tick + 1) % 4 = 0
        · rw [if_pos (hw.mpr ht), if_pos ht]
        · rw [if_neg (fun hx => ht (hw.mp hx)), if_neg ht]

theorem windowStep_J (sig : Frac → Frac) (e : MyEvent) (p : MyState × ℕ)
    (h1 : InvM p.1) (h2 : (p.2 : ℤ) = p.1.count) :
    InvM (windowStep sig p e).1 ∧ ((windowStep sig p e).2 : ℤ) = (windowStep sig p e).1.count := by
  cases e with
  | book instr seq ap av bp bv =>
      refine ⟨inv_book sig instr seq ap av bp bv p.1 h1, ?_⟩
      have hacc := book_count_acts sig instr seq ap av bp bv p.1
      simp only [windowStep, stepMy]
      split
      · rename_i hr
        rw [if_pos hr] at hacc
        omega
      · rename_i hr
        rw [if_neg hr] at hacc
        push_cast
        omega
  | filled id pr v =>
      refine ⟨inv_filled id pr v p.1 h1, ?_⟩
      show ((p.2 + countIC (on_order_filled id pr v p.1).2 : ℕ) : ℤ)
        = (on_order_filled id pr v p.1).1.count
      rw [filled_count, filled_countIC]
      push_cast
      omega
  | status id fv rv fees =>
      refine ⟨inv_status id fv rv fees p.1 h1, ?_⟩
      show ((p.2 + countIC [] : ℕ) : ℤ) = (on_order_status id fv rv fees p.1).count
      rw [status_count]
      show ((p.2 + 0 : ℕ) : ℤ) = p.1.count
      push_cast
      omega
  | err id =>
      refine ⟨inv_error id p.1 h1, ?_⟩
      show ((p.2 + countIC [] : ℕ) : ℤ) = (on_error id p.1).count
      rw [error_count]
      show ((p.2 + 0 : ℕ) : ℤ) = p.1.count
      push_cast
      omega
  | ticks =>
      refine ⟨h1, ?_⟩
      show ((p.2 + countIC [] : ℕ) : ℤ) = p.1.count
      show ((p.2 + 0 : ℕ) : ℤ) = p.1.count
      push_cast
      omega

theorem windowRun_J (sig : Frac → Frac) :
    ∀ (evs : List MyEvent) (p : MyState × ℕ), InvM p.1 → (p.2 : ℤ) = p.1.count →
      InvM (windowRun sig evs p).1 ∧ ((windowRun sig evs p).2 : ℤ) = (windowRun sig evs p).1.count := by
  intro evs
  induction evs with
  | nil => intro p h1 h2; exact ⟨h1, h2⟩
  | cons e rest ih =>
      intro p h1 h2
      obtain ⟨g1, g2⟩ := windowStep_J sig e p h1 h2
      exact ih _ g1 g2

theorem makeTrade_activeVolume (sig : Frac → Frac) (s : MyState) (m : Frac)
    (ap : List ℤ) (av : List ℕ) (bp : List ℤ) (bv : List ℕ) (bb ba : ℤ) (h : InvM s) :
    activeVolume (makeTrade sig s m ap av bp bv bb ba).1 = activeVolume s ∨
    activeVolume (makeTrade sig s m ap av bp bv bb ba).1 = ACTIVE_VOLUME_LIMIT := by
  rw [makeTrade_eq]
  split
  · rw [insertA_fresh _ _ _ (fresh_not_contains_bids s h),
        insertA_fresh _ _ _ (fresh_not_contains_asks s h)]
    show volSum (s.bids ++ [_]) + volSum (s.asks ++ [_]) = _ ∨
         volSum (s.bids ++ [_]) + volSum (s.asks ++ [_]) = _
    rw [volSum_append_single, volSum_append_single]
    rcases manageVolumes_sum sig s m with he | he
    · left
      unfold activeVolume
      dsimp only
      omega
    · right
      unfold ACTIVE_VOLUME_LIMIT at *
      unfold activeVolume at he
      dsimp only
      omega
  · left
    show activeVolume (managePrices s m bb ba).1 = activeVolume s
    unfold activeVolume
    rw [managePrices_bids, managePrices_asks]

theorem book_activeVolume_cap (sig : Frac → Frac) (instr seq : ℕ)
    (ap : List ℤ) (av : List ℕ) (bp : List ℤ) (bv : List ℕ) (s : MyState) (h : InvM s) :
    activeVolume (on_order_book_update sig instr seq ap av bp bv s).1
      ≤ max (activeVolume s) ACTIVE_VOLUME_LIMIT := by
  unfold on_order_book_update
  dsimp only
  split
  · exact le_max_left _ _
  · split
    · exact le_max_left _ _
    · split
      · rcases makeTrade_activeVolume sig _ _ _ _ _ _ _ _
            (inv_ddt _ _ _ (inv_bookStore _ _ _ _ _ _ h)) with he | he
        · rw [he, ddt_activeVolume, bookStore_activeVolume]
          exact le_max_left _ _
        · rw [he]
          exact le_max_right _ _
      · rw [ddt_activeVolume, bookStore_activeVolume]
        exact le_max_left _ _


/-! ## Position lemmas of the second strategy -/

theorem newAccum_position (ap bp : List ℤ) (s : NewState) :
    (newAccum ap bp s).position = s.position := rfl

theorem newTrim_position (s : NewState) : (newTrim s).position = s.position := by
  unfold newTrim
  dsimp only
  split <;> split <;> rfl

theorem newQuote_position (isBuy : Bool) (op : ℤ) (ap : List ℤ) (av bv : List ℕ)
    (s : NewState) : (newQuote isBuy op ap av bv s).1.position = s.position := by
  unfold newQuote
  dsimp only
  repeat' split
  all_goals rfl

theorem newBook_position (instr seq : ℕ) (ap : List ℤ) (av : List ℕ) (bp : List ℤ)
    (bv : List ℕ) (s : NewState) : (newBook instr seq ap av bp bv s).1.position = s.position := by
  unfold newBook
  dsimp only
  split
  · split
    · exact newAccum_position ap bp s
    · split
      · rw [newTrim_position, newAccum_position]
      · rw [newQuote_position, newTrim_position, newAccum_position]
  · rfl

theorem newStatus_position (id : ℕ) (fv rv : ℕ) (fees : ℤ) (s : NewState) :
    (newStatus id fv rv fees s).position = s.position := by
  unfold newStatus
  dsimp only
  repeat' split
  all_goals rfl

theorem newError_position (id : ℕ) (s : NewState) : (newError id s).position = s.position := by
  unfold newError
  split
  · rw [newStatus_position]
  · rfl

theorem stepNew_position (e : NewEvent) (s : NewState) (h : e.isFill = false) :
    (stepNew e s).1.position = s.position := by
  cases e with
  | book instr seq ap av bp bv => exact newBook_position instr seq ap av bp bv s
  | filled id pr v => simp [NewEvent.isFill] at h
  | status id fv rv fees => exact newStatus_position id fv rv fees s
  | err id => exact newError_position id s
  | hedgeFilled id pr v => rfl
  | ticks => rfl

/-! ## Further helper lemmas for the claims -/

theorem containsA_eraseA (k : ℕ) (l : List (ℕ × Order)) :
    containsA k (eraseA k l) = false := by
  induction l with
  | nil => rfl
  | cons a rest ih =>
      by_cases ha : a.1 = k
      · simp only [eraseA, List.filter] at *
        simp [ha, ih]
      · simp only [eraseA, List.filter] at *
        have hne : (a.1 != k) = true := by simp [ha]
        simp only [hne]
        simp only [containsA, List.any_cons] at *
        simp [ha, ih]

theorem eraseA_idem (k : ℕ) (l : List (ℕ × Order)) :
    eraseA k (eraseA k l) = eraseA k l := by
  unfold eraseA
  rw [List.filter_filter]
  simp

theorem runMy_position_aux (sig : Frac → Frac) :
    ∀ (evs : List MyEvent) (s : MyState), (∀ e ∈ evs, e.isFill = false) →
      (runMy sig evs s).position = s.position := by
  intro evs
  induction evs with
  | nil => intro s _; rfl
  | cons e rest ih =>
      intro s h
      have h1 : (runMy sig rest (stepMy sig e s).1).position = (stepMy sig e s).1.position :=
        ih _ (fun x hx => h x (List.mem_cons_of_mem e hx))
      have h2 := stepMy_position sig e s (h e (List.mem_cons_self e rest))
      show (runMy sig rest (stepMy sig e s).1).position = s.position
      rw [h1, h2]

theorem runNew_position_aux :
    ∀ (evs : List NewEvent) (t : NewState), (∀ e ∈ evs, e.isFill = false) →
      (runNew evs t).position = t.position := by
  intro evs
  induction evs with
  | nil => intro t _; rfl
  | cons e rest ih =>
      intro t h
      have h1 : (runNew rest (stepNew e t).1).position = (stepNew e t).1.position :=
        ih _ (fun x hx => h x (List.mem_cons_of_mem e hx))
      have h2 := stepNew_position e t (h e (List.mem_cons_self e rest))
      show (runNew rest (stepNew e t).1).position = t.position
      rw [h1, h2]

/-! ## The claims -/

set_option maxRecDepth 100000

/-- C1 (counterexample): the claimed limits fail on the code.  After
`traceCount` the engine tracks 11 live entries, above
`ACTIVE_ORDER_COUNT_LIMIT` (`manageVolumes` can signal `(0, 0)` but
`makeTrade` inserts and records the two quotes regardless); and after
`traceVolume` the tracked active volume is 210, above
`ACTIVE_VOLUME_LIMIT` (closing an overfilled entry whose tracked volume
had gone negative raises the sum after a fresh quote refilled it to the
limit). -/
theorem active_limits_counterexample :
    ((runMy sigHalf traceCount initMy).bids.length
        + (runMy sigHalf traceCount initMy).asks.length = 11
      ∧ ACTIVE_ORDER_COUNT_LIMIT < 11)
    ∧ (activeVolume (runMy sigHalf traceVolume initMy) = 210 ∧ ACTIVE_VOLUME_LIMIT < 210) := by
  exact ⟨⟨by decide, by decide⟩, by decide, by decide⟩

/-- C1 (amended): what does hold is that an order-book tick itself never
lifts the tracked active volume above `ACTIVE_VOLUME_LIMIT`: after any
reachable state, processing one book tick leaves the active volume at most
`max` of its previous value and the limit (the quoting step fills the
budget to exactly the limit or leaves the volume unchanged).  The
order-count bound has no analogue: ticks add two tracked entries whenever
the rate gate passes. -/
theorem book_tick_volume_cap (sig : Frac → Frac) (evs : List MyEvent) (instr seq : ℕ)
    (ap : List ℤ) (av : List ℕ) (bp : List ℤ) (bv : List ℕ) :
    activeVolume ((stepMy sig (.book instr seq ap av bp bv) (runMy sig evs initMy)).1)
      ≤ max (activeVolume (runMy sig evs initMy)) ACTIVE_VOLUME_LIMIT :=
  book_activeVolume_cap sig instr seq ap av bp bv _ (runMy_inv sig evs)

/-- C2: within any rate window (the ticks since the counter was last
reset), the engine issues at most `RATELIMIT` insert/cancel actions: for
every event trace from the initial state, the instrumented count of
insert/cancel actions emitted since the most recent window reset never
exceeds `RATELIMIT`.  (Every issued action is matched by a counter
increment, the counter is only reset at window boundaries, and both the
sweep and the quoting step are suppressed once their budget gate fails.) -/
theorem rate_budget_window_bound (sig : Frac → Frac) (evs : List MyEvent) :
    ((windowRun sig evs (initMy, 0)).2 : ℤ) ≤ RATELIMIT := by
  obtain ⟨h1, h2⟩ := windowRun_J sig evs (initMy, 0) inv_initMy rfl
  rw [h2]
  exact h1.c24

/-- C3 (counterexample): the hedge is not sized to
`min(v, POSITION_LIMIT - newPosition)`.  From position 90, a ten-lot fill
on tracked bid 1 makes the new position 100, so the claimed size is
`min(10, 0) = 0`, yet the engine sends a ten-lot hedge. -/
theorem hedge_sizing_counterexample :
    (on_order_filled 1 1000 10 posState).2 = [Act.hedge 5 .sell MIN_BID_NEAREST_TICK 10]
    ∧ min (10 : ℤ) (POSITION_LIMIT - (on_order_filled 1 1000 10 posState).1.position) = 0
    ∧ (10 : ℤ) ≠ 0 := by
  decide

/-- C3 (amended): a fill of volume `v` on a tracked bid emits exactly one
hedge order, on the sell side, priced `MIN_BID_NEAREST_TICK`, sized
exactly `v` (never clamped by the position limit); a fill on a tracked ask
emits exactly one buy hedge at `MAX_ASK_NEAREST_TICK` sized `v`.  Both
strategies behave identically in this respect. -/
theorem hedge_order_per_fill (s : MyState) (t : NewState) (id : ℕ) (pr : ℤ) (v : ℕ) :
    (containsA id s.bids = true →
      (on_order_filled id pr v s).2 = [Act.hedge s.nextId .sell MIN_BID_NEAREST_TICK (v : ℤ)]) ∧
    (containsA id s.bids = false → containsA id s.asks = true →
      (on_order_filled id pr v s).2 = [Act.hedge s.nextId .buy MAX_ASK_NEAREST_TICK (v : ℤ)]) ∧
    (id ∈ t.bids →
      (newFilled id pr v t).2 = [Act.hedge t.nextId .sell MIN_BID_NEAREST_TICK (v : ℤ)]) ∧
    (id ∉ t.bids → id ∈ t.asks →
      (newFilled id pr v t).2 = [Act.hedge t.nextId .buy MAX_ASK_NEAREST_TICK (v : ℤ)]) := by
  refine ⟨?_, ?_, ?_, ?_⟩
  · intro hb
    unfold on_order_filled
    simp [hb]
  · intro hb ha
    unfold on_order_filled
    simp [hb, ha]
  · intro hb
    unfold newFilled
    simp [hb]
  · intro hb ha
    unfold newFilled
    simp [hb, ha]

/-- C3 (witness): the amended theorem applied to concrete fills on a
tracked bid of each strategy and a tracked ask of each strategy. -/
theorem hedge_order_per_fill_witness :
    (on_order_filled 1 1000 10 posState).2 = [Act.hedge 5 .sell MIN_BID_NEAREST_TICK 10]
    ∧ (on_order_filled 2 1200 10 askState).2 = [Act.hedge 9 .buy MAX_ASK_NEAREST_TICK 10]
    ∧ (newFilled 1 1000 10 newPosState).2 = [Act.hedge 7 .sell MIN_BID_NEAREST_TICK 10]
    ∧ (newFilled 2 1200 10 newPosState).2 = [Act.hedge 7 .buy MAX_ASK_NEAREST_TICK 10] :=
  ⟨(hedge_order_per_fill posState newPosState 1 1000 10).1 (by decide),
   (hedge_order_per_fill askState newPosState 2 1200 10).2.1 (by decide) (by decide),
   (hedge_order_per_fill posState newPosState 1 1000 10).2.2.1 (by decide),
   (hedge_order_per_fill posState newPosState 2 1200 10).2.2.2 (by decide) (by decide)⟩

/-- C4 (counterexample): reconciliation neither cancels on a price change
nor stays quiet on a price match.  At `rcState` the target bid price (12)
differs from the live quote price (10), yet the emitted actions contain no
cancel, only the two fresh inserts; and repeating the same reconciliation
when the stored prices already equal the targets still emits two fresh
inserts instead of no action. -/
theorem reconcile_counterexample :
    ((makeTrade sigHalf rcState ⟨13, 1⟩ [] [] [] [] 12 14).1.bid_price = 12
      ∧ rcState.bid_price = 10
      ∧ (makeTrade sigHalf rcState ⟨13, 1⟩ [] [] [] [] 12 14).2
          = [Act.insert 21 .buy 1200 10, Act.insert 22 .sell 1400 10])
    ∧ (makeTrade sigHalf (makeTrade sigHalf rcState ⟨13, 1⟩ [] [] [] [] 12 14).1
          ⟨13, 1⟩ [] [] [] [] 12 14).2
        = [Act.insert 23 .buy 1200 10, Act.insert 24 .sell 1400 10] := by
  decide

/-- C4 (amended): `makeTrade` never emits a cancel (its price-difference
test compares the freshly stored target against itself, so it is always
false), and whenever the rate gate passes it emits exactly a fresh-id bid
insert and a fresh-id ask insert at the target prices, whether or not they
equal the previous prices; when the gate fails it emits nothing. -/
theorem reconcile_actions_characterization (sig : Frac → Frac) (s : MyState) (m : Frac)
    (ap : List ℤ) (av : List ℕ) (bp : List ℤ) (bv : List ℕ) (bb ba : ℤ) :
    ((makeTrade sig s m ap av bp bv bb ba).2.all (fun a => !a.isCancel)) = true ∧
    (makeTrade sig s m ap av bp bv bb ba).2 =
      (if s.count < RATELIMIT - 1 then
        [Act.insert s.nextId .buy ((managePrices s m bb ba).2.2 * TICK_SIZE_IN_CENTS) LOT_SIZE,
         Act.insert (s.nextId + 1) .sell
           ((managePrices s m bb ba).2.1 * TICK_SIZE_IN_CENTS) LOT_SIZE]
       else []) := by
  rw [makeTrade_eq]
  constructor
  · split <;> rfl
  · split <;> rfl

/-- C5: the signed position is only mutated by fill events.  For both
strategies, running any event sequence that contains no fill leaves the
position unchanged. -/
theorem position_only_changes_on_fills :
    (∀ (sig : Frac → Frac) (evs : List MyEvent) (s : MyState),
        (∀ e ∈ evs, e.isFill = false) → (runMy sig evs s).position = s.position)
    ∧ (∀ (evs : List NewEvent) (t : NewState),
        (∀ e ∈ evs, e.isFill = false) → (runNew evs t).position = t.position) :=
  ⟨fun sig => runMy_position_aux sig, runNew_position_aux⟩

/-- C5 (witness): concrete fill-free traces (book ticks, status updates,
errors, trade ticks, hedge fills) leave both strategies' positions at
their initial value. -/
theorem position_only_changes_on_fills_witness :
    (runMy sigHalf [tkFut, tkEtf, tkDone 1, .err 3, .ticks] initMy).position = initMy.position
    ∧ (runNew [.book 0 1 [5, 0] [1, 1] [6, 0] [1, 1], .status 1 0 0 0, .err 2,
               .hedgeFilled 3 100 1, .ticks] initNew).position = initNew.position :=
  ⟨(position_only_changes_on_fills).1 sigHalf _ initMy (by decide),
   (position_only_changes_on_fills).2 _ initNew (by decide)⟩

/-- C6 (counterexample): quoted prices are not clamped to the venue's
band.  On a cheap book (best prices 1) the first insert of the tick is
priced 0, strictly below `MIN_BID_NEAREST_TICK`. -/
theorem insert_price_bounds_counterexample :
    (runActs sigHalf tracePrice initMy).2 = [Act.insert 1 .buy 0 10, Act.insert 2 .sell 200 10]
    ∧ (0 : ℤ) < MIN_BID_NEAREST_TICK := by
  decide

/-- C6 (amended): the size half of the claim holds: every insert order
emitted by any handler invocation has volume exactly `LOT_SIZE`, hence
positive.  (The price half fails, see the counterexample.) -/
theorem insert_sizes_positive (sig : Frac → Frac) (e : MyEvent) (s : MyState)
    (id : ℕ) (sd : Side) (p vol : ℤ)
    (h : Act.insert id sd p vol ∈ (stepMy sig e s).2) : vol = LOT_SIZE ∧ 0 < vol := by
  cases e with
  | book instr seq ap av bp bv =>
      revert h
      show Act.insert id sd p vol ∈ (on_order_book_update sig instr seq ap av bp bv s).2 → _
      unfold on_order_book_update
      dsimp only
      split
      · intro h; exact absurd h (List.not_mem_nil _)
      · split
        · intro h; exact absurd h (List.not_mem_nil _)
        · split
          · intro h
            rcases List.mem_append.mp h with hm | hm
            · have := ddt_acts_cancel _ _ _ _ hm
              simp [Act.isCancel] at this
            · rw [makeTrade_eq] at hm
              split at hm
              · rcases List.mem_cons.mp hm with he | he
                · cases he
                  exact ⟨rfl, by decide⟩
                · rcases List.mem_cons.mp he with he2 | he2
                  · cases he2
                    exact ⟨rfl, by decide⟩
                  · exact absurd he2 (List.not_mem_nil _)
              · exact absurd hm (List.not_mem_nil _)
          · intro h
            have := ddt_acts_cancel _ _ _ _ h
            simp [Act.isCancel] at this
  | filled fid fpr fv =>
      revert h
      show Act.insert id sd p vol ∈ (on_order_filled fid fpr fv s).2 → _
      unfold on_order_filled
      dsimp only
      split
      · intro h
        rcases List.mem_cons.mp h with he | he
        · cases he
        · exact absurd he (List.not_mem_nil _)
      · split
        · intro h
          rcases List.mem_cons.mp h with he | he
          · cases he
          · exact absurd he (List.not_mem_nil _)
        · intro h; exact absurd h (List.not_mem_nil _)
  | status sid sfv srv sfees => exact absurd h (List.not_mem_nil _)
  | err eid => exact absurd h (List.not_mem_nil _)
  | ticks => exact absurd h (List.not_mem_nil _)

/-- C6 (witness): the amended theorem applied to the bid insert of the
cheap-book tick. -/
theorem insert_sizes_positive_witness :
    Act.insert 1 .buy 0 10 ∈ (stepMy sigHalf tkEtfLow (runMy sigHalf [tkFutLow] initMy)).2
    ∧ ((10 : ℤ) = LOT_SIZE ∧ (0 : ℤ) < 10) :=
  ⟨by decide,
   insert_sizes_positive sigHalf tkEtfLow (runMy sigHalf [tkFutLow] initMy) 1 .buy 0 10
     (by decide)⟩

/-- C7: a book tick whose top-of-book volumes sum to zero is ignored
entirely: the handler leaves the state untouched and emits no action. -/
theorem zero_topofbook_tick_ignored (sig : Frac → Frac) (instr seq : ℕ)
    (ap : List ℤ) (av : List ℕ) (bp : List ℤ) (bv : List ℕ) (s : MyState)
    (h : bv.getD 0 0 + av.getD 0 0 = 0) :
    stepMy sig (.book instr seq ap av bp bv) s = (s, []) := by
  show on_order_book_update sig instr seq ap av bp bv s = (s, [])
  unfold on_order_book_update
  rw [if_pos ⟨by omega, by omega⟩]

/-- C7 (witness): a concrete empty-top tick at a nonempty state changes
nothing. -/
theorem zero_topofbook_tick_ignored_witness :
    stepMy sigHalf (.book 1 7 [5, 0, 0, 0, 0] [0, 0, 0, 0, 0] [6, 0, 0, 0, 0] [0, 0, 0, 0, 0])
        fullState = (fullState, []) :=
  zero_topofbook_tick_ignored sigHalf 1 7 [5, 0, 0, 0, 0] [0, 0, 0, 0, 0] [6, 0, 0, 0, 0]
    [0, 0, 0, 0, 0] fullState (by decide)

/-- C8: delivering the same zero-remaining status update twice yields the
same state as delivering it once: the second application finds the id in
neither map, so it changes no field and the erasures are idempotent. -/
theorem status_zero_remaining_idempotent (id : ℕ) (fv : ℕ) (fees : ℤ) (s : MyState) :
    on_order_status id fv 0 fees (on_order_status id fv 0 fees s) =
      on_order_status id fv 0 fees s := by
  unfold on_order_status
  simp only [reduceIte]
  split
  · simp [containsA_eraseA, eraseA_idem]
  · split
    · simp [containsA_eraseA, eraseA_idem]
    · simp [containsA_eraseA, eraseA_idem]

/-- C9: when the tracked active volume is 150 or more, an order-book tick
issues no insert order (only the dead-quote sweep's cancels can be
emitted), even though the stated exposure ceiling is 200. -/
theorem no_new_quotes_at_150 (sig : Frac → Frac) (instr seq : ℕ)
    (ap : List ℤ) (av : List ℕ) (bp : List ℤ) (bv : List ℕ) (s : MyState)
    (h : 150 ≤ activeVolume s) :
    ((stepMy sig (.book instr seq ap av bp bv) s).2.all (fun a => !a.isInsert)) = true := by
  show ((on_order_book_update sig instr seq ap av bp bv s).2.all (fun a => !a.isInsert)) = true
  unfold on_order_book_update
  dsimp only
  split
  · rfl
  · split
    · rfl
    · split
      · rename_i hgate
        rw [ddt_activeVolume, bookStore_activeVolume] at hgate
        omega
      · rw [List.all_eq_true]
        intro a ha
        have hc := ddt_acts_cancel _ _ _ a ha
        cases a <;> simp_all [Act.isCancel, Act.isInsert]

/-- C9 (witness): at a state tracking exactly 150 lots, a concrete ETF
tick emits no insert. -/
theorem no_new_quotes_at_150_witness :
    ((stepMy sigHalf (.book 1 2 [12, 0, 0, 0, 0] [30, 0, 0, 0, 0] [10, 0, 0, 0, 0]
        [30, 0, 0, 0, 0]) fullState).2.all (fun a => !a.isInsert)) = true :=
  no_new_quotes_at_150 sigHalf 1 2 [12, 0, 0, 0, 0] [30, 0, 0, 0, 0] [10, 0, 0, 0, 0]
    [30, 0, 0, 0, 0] fullState (by decide)

/-- C10: in every reachable state the bid and ask maps have disjoint key
sets: ids are drawn from a single counter and recorded on one side only,
so every fill or status event matches at most one side. -/
theorem bid_ask_keys_disjoint (sig : Frac → Frac) (evs : List MyEvent) (k : ℕ)
    (hk : k ∈ keysOf (runMy sig evs initMy).bids) :
    k ∉ keysOf (runMy sig evs initMy).asks :=
  (runMy_inv sig evs).disj k hk

/-- C10 (witness): after one quote cycle, bid id 1 is tracked on the bid
side and absent from the ask side. -/
theorem bid_ask_keys_disjoint_witness :
    1 ∈ keysOf (runMy sigHalf [tkFut, tkEtf] initMy).bids
    ∧ 1 ∉ keysOf (runMy sigHalf [tkFut, tkEtf] initMy).asks :=
  ⟨by decide, bid_ask_keys_disjoint sigHalf [tkFut, tkEtf] 1 (by decide)⟩
